import Mathlib

/-!
Verification of the document ingestion-and-retrieval pipeline
(`main.py`: `upload`, `search`, `process_doc`, `delete_doc`).

The external collaborators (Weaviate vector store, OCR, pdfplumber, docx)
are modelled abstractly: the store is a list of records, and per-page OCR
output / docx paragraph texts are taken as given inputs.  The langchain
`RecursiveCharacterTextSplitter` and the Python `json` module are not part
of this repository's sources, so they are modelled from the specification
(see the doc comments on `split_text` and `parseJson`).
-/

namespace RagSystem

/-- A persisted record, one per chunk, as assembled in `process_doc`
(`main.py` lines 188-196) and stored in the `DocumentChunk` collection. -/
structure DocumentRecord where
  text : String
  document_name : String
  chunk_id : Nat
  document_type : String
  total_chunks : Nat
  context_before : String
  context_after : String
deriving Repr, DecidableEq, Inhabited

/-- The record-building loop of `process_doc` (`main.py` lines 184-198):
for each index `i` of the chunk list, build a record whose
`context_before` is `chunks[i-1]` if `i > 0` else `""` and whose
`context_after` is `chunks[i+1]` if `i < len(chunks)-1` else `""`. -/
def process_doc_records (chunks : List String) (file_name file_type : String) :
    List DocumentRecord :=
  (List.range chunks.length).map fun i =>
    { text := chunks.getD i ""
      document_name := file_name
      chunk_id := i
      document_type := file_type
      total_chunks := chunks.length
      context_before := if i > 0 then chunks.getD (i - 1) "" else ""
      context_after := if i < chunks.length - 1 then chunks.getD (i + 1) "" else "" }

/-- Chunk size of the splitter configured in `process_doc`
(`main.py` line 177). -/
def chunk_size : Nat := 500

/-- Chunk overlap of the splitter configured in `process_doc`
(`main.py` line 178). -/
def chunk_overlap : Nat := 150

/-- Modelled from the spec: the priority-ordered boundary hierarchy of the
recursive character splitter (spec section 4.2: paragraph breaks, then
finer line/sentence breaks, then word breaks); the splitter itself is
langchain library code absent from this repository's sources. -/
def separators : List (List Char) := [['\n', '\n'], ['\n'], [' ']]

/-- Modelled from the spec: the hard character cut of spec section 4.2,
taking pieces of exactly `maxSize` characters until the remainder fits.
Fuel-indexed so the definition is structurally recursive; the fuel is
instantiated with the text length, which always suffices. -/
def hardCutGo (maxSize : Nat) : Nat → List Char → List (List Char)
  | 0, t => [t]
  | fuel + 1, t =>
    if t.length ≤ maxSize ∨ maxSize = 0 then [t]
    else t.take maxSize :: hardCutGo maxSize fuel (t.drop maxSize)

/-- Modelled from the spec: hard character cut entry point
(spec section 4.2). -/
def hardCut (maxSize : Nat) (t : List Char) : List (List Char) :=
  hardCutGo maxSize t.length t

/-- Modelled from the spec: splitting a character sequence on every
occurrence of a (non-empty) separator sequence, scanning left to right.
Fuel-indexed for structural recursion; fuel `t.length` always suffices. -/
def splitOnSeqGo (sep : List Char) : Nat → List Char → List Char → List (List Char)
  | 0, cur, t => [cur.reverse ++ t]
  | fuel + 1, cur, t =>
    match t with
    | [] => [cur.reverse]
    | c :: rest =>
      if sep.isPrefixOf (c :: rest) then
        cur.reverse :: splitOnSeqGo sep fuel [] ((c :: rest).drop sep.length)
      else
        splitOnSeqGo sep fuel (c :: cur) rest

/-- Modelled from the spec: split on a separator sequence, entry point. -/
def splitOnSeq (sep t : List Char) : List (List Char) :=
  if sep.isEmpty then [t] else splitOnSeqGo sep t.length [] t

/-- Modelled from the spec: concatenating split pieces back into chunks of
at most `maxSize` characters, where each chunk after the first carries the
trailing `ov` characters of its predecessor as overlap (spec section 4.2). -/
def mergeGo (maxSize ov : Nat) :
    List (List Char) → List Char → List (List Char) → List (List Char)
  | [], current, acc =>
    if current.isEmpty then acc.reverse else (current :: acc).reverse
  | p :: rest, current, acc =>
    if current.length + p.length ≤ maxSize then
      mergeGo maxSize ov rest (current ++ p) acc
    else
      mergeGo maxSize ov rest (current.drop (current.length - ov) ++ p) (current :: acc)

/-- Modelled from the spec: merge step entry point (spec section 4.2). -/
def mergeSplits (maxSize ov : Nat) (pieces : List (List Char)) : List (List Char) :=
  mergeGo maxSize ov pieces [] []

/-- Modelled from the spec: the recursive boundary-seeking split strategy
of spec section 4.2 — split on the coarsest separator, recursively re-split
every piece still larger than `maxSize` with the finer separators (hard
character cut once no separator is left), and merge the resulting pieces
back into overlapping chunks.  Text already within `maxSize` is returned
as a single chunk. -/
def splitRec (maxSize ov : Nat) : List (List Char) → List Char → List (List Char)
  | [], t => if t.length ≤ maxSize then [t] else hardCut maxSize t
  | sep :: rest, t =>
    if t.length ≤ maxSize then [t]
    else
      mergeSplits maxSize ov
        (((splitOnSeq sep t).filter (fun p => !p.isEmpty)).flatMap fun p =>
          if p.length ≤ maxSize then [p] else splitRec maxSize ov rest p)

/-- Modelled from the spec: `split(text, max_size=500, overlap=150)` of
spec section 4.2 (the langchain `RecursiveCharacterTextSplitter` invoked
at `main.py` lines 176-182, whose code is not part of this repository).
Empty input text yields the empty chunk sequence (zero chunks). -/
def split_text (text : String) : List String :=
  if text.data = [] then []
  else (splitRec chunk_size chunk_overlap separators text.data).map String.mk

/-- JSON values as parsed by the Python `json` module.  Modelled from the
spec (section 4.1): the `json` branch of `process_doc` must parse-validate
and re-serialize; the `json` module is standard-library code absent from
this repository's sources. -/
inductive JsonValue where
  | null
  | bool (b : Bool)
  | num (n : Int)
  | str (s : String)
  | arr (items : List JsonValue)
  | obj (fields : List (String × JsonValue))
deriving Repr, Inhabited

/-- The opening brace character. -/
def lbrace : Char := Char.ofNat 123

/-- The closing brace character. -/
def rbrace : Char := Char.ofNat 125

/-- Modelled from the spec: canonical re-serialization of a parsed JSON
structure, matching the `json.dumps` defaults used at `main.py` line 171
(item separator a comma and space, key separator a colon and space).
String escaping is not modelled.  Fuel-indexed for structural recursion;
`sizeOf v` bounds the recursion depth. -/
def dumpsGo : Nat → JsonValue → String
  | 0, _ => ""
  | fuel + 1, v =>
    match v with
    | .null => "null"
    | .bool true => "true"
    | .bool false => "false"
    | .num n => toString n
    | .str s => "\"" ++ s ++ "\""
    | .arr items => "[" ++ String.intercalate ", " (items.map (dumpsGo fuel)) ++ "]"
    | .obj fields =>
        String.mk [lbrace] ++
          String.intercalate ", "
            (fields.map fun f => "\"" ++ f.1 ++ "\": " ++ dumpsGo fuel f.2) ++
          String.mk [rbrace]

/-- Modelled from the spec: `json.dumps`, entry point.  The fuel is the
length of the raw input the value was parsed from: every nesting level of
a parsed value consumes at least one input character, so this bounds the
depth. -/
def dumps (rawLen : Nat) (v : JsonValue) : String := dumpsGo (rawLen + 1) v

/-- Whitespace skipped by the JSON parser. -/
def isWsChar (c : Char) : Bool :=
  c == ' ' || c == '\n' || c == '\t' || c == '\r'

/-- Drop leading JSON whitespace. -/
def skipWs (t : List Char) : List Char := t.dropWhile isWsChar

/-- Decimal digits to a natural number. -/
def digitsToNat (ds : List Char) : Nat :=
  ds.foldl (fun acc c => acc * 10 + (c.toNat - 48)) 0

/-- Modelled from the spec: parse a JSON string body after its opening
quote (escapes not modelled). -/
def parseJsonString (t : List Char) : Option (String × List Char) :=
  let s := t.takeWhile fun c => c != '"'
  match t.drop s.length with
  | c :: r => if c == '"' then some (String.mk s, r) else none
  | [] => none

mutual

/-- Modelled from the spec: parse one JSON value (the Python `json.load`
of `main.py` line 170, standard-library code absent from this
repository).  Fuel-indexed; `parseJson` instantiates the fuel with the
input length plus one, which suffices for inputs the parser accepts. -/
def parseVal : Nat → List Char → Option (JsonValue × List Char)
  | 0, _ => none
  | fuel + 1, t =>
    match skipWs t with
    | [] => none
    | c :: rest =>
      if c == '"' then
        match parseJsonString rest with
        | some (s, r) => some (.str s, r)
        | none => none
      else if c == lbrace then
        match skipWs rest with
        | d :: r2 =>
          if d == rbrace then some (.obj [], r2)
          else
            match parseMembers fuel (skipWs rest) with
            | some (fs, r3) => some (.obj fs, r3)
            | none => none
        | [] => none
      else if c == '[' then
        match skipWs rest with
        | d :: r2 =>
          if d == ']' then some (.arr [], r2)
          else
            match parseItems fuel (skipWs rest) with
            | some (xs, r3) => some (.arr xs, r3)
            | none => none
        | [] => none
      else if c == 't' then
        if rest.take 3 == ['r', 'u', 'e'] then some (.bool true, rest.drop 3) else none
      else if c == 'f' then
        if rest.take 4 == ['a', 'l', 's', 'e'] then some (.bool false, rest.drop 4)
        else none
      else if c == 'n' then
        if rest.take 3 == ['u', 'l', 'l'] then some (.null, rest.drop 3) else none
      else if c == '-' then
        let ds := rest.takeWhile Char.isDigit
        if ds.isEmpty then none
        else some (.num (-(digitsToNat ds : Int)), rest.drop ds.length)
      else if c.isDigit then
        let ds := (c :: rest).takeWhile Char.isDigit
        some (.num (digitsToNat ds : Int), (c :: rest).drop ds.length)
      else none

/-- Modelled from the spec: parse the members of a JSON object, positioned
at the first key. -/
def parseMembers : Nat → List Char → Option (List (String × JsonValue) × List Char)
  | 0, _ => none
  | fuel + 1, t =>
    match skipWs t with
    | c :: rest =>
      if c == '"' then
        match parseJsonString rest with
        | some (key, r1) =>
          match skipWs r1 with
          | d :: r2 =>
            if d == ':' then
              match parseVal fuel r2 with
              | some (v, r3) =>
                match skipWs r3 with
                | e :: r4 =>
                  if e == ',' then
                    match parseMembers fuel r4 with
                    | some (fs, r5) => some ((key, v) :: fs, r5)
                    | none => none
                  else if e == rbrace then some ([(key, v)], r4)
                  else none
                | [] => none
              | none => none
            else none
          | [] => none
        | none => none
      else none
    | [] => none

/-- Modelled from the spec: parse the items of a JSON array, positioned at
the first item. -/
def parseItems : Nat → List Char → Option (List JsonValue × List Char)
  | 0, _ => none
  | fuel + 1, t =>
    match parseVal fuel t with
    | some (v, r1) =>
      match skipWs r1 with
      | e :: r2 =>
        if e == ',' then
          match parseItems fuel r2 with
          | some (xs, r3) => some (v :: xs, r3)
          | none => none
        else if e == ']' then some ([v], r2)
        else none
      | [] => none
    | none => none

end

/-- Modelled from the spec: `json.load` on a whole document — parse one
value and require only trailing whitespace after it. -/
def parseJson (s : String) : Option JsonValue :=
  match parseVal (s.length + 1) s.data with
  | some (v, rest) => if (skipWs rest).isEmpty then some v else none
  | none => none

/-- Errors surfaced by text extraction (spec section 7): invalid JSON
bodies, and failures inside the external parsers/OCR. -/
inductive ExtractError where
  | malformedInput
  | extractionError
deriving Repr, DecidableEq

/-- A file's content as seen through the external parsers: per-page OCR
text for PDF, per-paragraph text for DOCX, raw character content for JSON
and TXT (OCR and format parsing are external collaborators, spec
section 1). -/
inductive FileData where
  | pdf (pages : List String)
  | docx (paras : List String)
  | json (raw : String)
  | txt (raw : String)
deriving Repr, DecidableEq, Inhabited

/-- The extraction dispatch of `process_doc` (`main.py` lines 159-174):
`text` starts empty; the `pdf` branch appends each page's OCR text plus a
newline (`text += pytesseract.image_to_string(img) + "\n"`), the `docx`
branch joins paragraph texts with single spaces, the `json` branch parses
and re-serializes, and the `txt` branch passes content through.  A
declared type whose parser does not match the file's actual content models
the external parser raising, so it yields `extractionError`; a `file_type`
matching none of the four branches leaves `text` empty, as in the source's
if/elif chain with no else. -/
def extract_text (file_type : String) (data : FileData) : Except ExtractError String :=
  if file_type = "pdf" then
    match data with
    | .pdf pages => .ok (pages.foldl (fun acc p => acc ++ p ++ "\n") "")
    | _ => .error .extractionError
  else if file_type = "docx" then
    match data with
    | .docx paras => .ok (String.intercalate " " paras)
    | _ => .error .extractionError
  else if file_type = "json" then
    match data with
    | .json raw =>
      match parseJson raw with
      | some v => .ok (dumps raw.length v)
      | none => .error .malformedInput
    | _ => .error .extractionError
  else if file_type = "txt" then
    match data with
    | .txt raw => .ok raw
    | _ => .error .extractionError
  else .ok ""

/-- `process_doc` (`main.py` lines 158-198): extract the text, split it,
and build the per-chunk records.  An extraction failure propagates (the
Python exception) as `Except.error`. -/
def process_doc (file_type file_name : String) (data : FileData) :
    Except ExtractError (List DocumentRecord) :=
  (extract_text file_type data).map fun text =>
    process_doc_records (split_text text) file_name file_type

/-- The vector store's `DocumentChunk` collection, modelled as the list of
records it holds (the store itself is an external collaborator). -/
abbrev Store := List DocumentRecord

/-- `delete_doc` (`main.py` lines 200-208): delete every record whose
`document_name` equals the given name. -/
def delete_doc (store : Store) (document_name : String) : Store :=
  store.filter fun r => r.document_name ≠ document_name

/-- The supported formats checked in `upload` (`main.py` line 84). -/
def supported_formats : List String := ["pdf", "docx", "txt", "json"]

/-- The declared type computed in `upload` (`main.py` line 83):
`filename.split(".")[-1]`, the last piece of the filename split on
literal dots (the whole filename when it contains no dot). -/
def fileExtension (filename : String) : String :=
  String.mk ((filename.data.splitOn '.').getLast?.getD [])

/-- The substring of a filename after its last dot (the whole filename
when it has no dot): the specification-level description of the declared
type, stated independently of `fileExtension` for comparison. -/
def afterLastDot : List Char → List Char
  | [] => []
  | c :: t =>
    if '.' ∈ t then afterLastDot t
    else if c = '.' then t
    else c :: t

/-- Errors of the `upload` endpoint (the HTTP 400 responses of `main.py`
lines 81 and 85, plus propagated extraction failures). -/
inductive UploadError where
  | invalidFilename
  | unsupportedFormat
  | extraction (e : ExtractError)
deriving Repr, DecidableEq

/-- The successful `upload` response (`main.py` lines 112-116). -/
structure UploadResult where
  success : Bool
  chunks : Nat
deriving Repr, DecidableEq

/-- `upload` (`main.py` lines 77-116) acting on the modelled store:
validate the filename (`None` or empty is falsy and rejected), check the
extension against the supported formats, then delete the document's
previous records (line 96), process the document (line 98), and
batch-insert the new records (lines 100-105).  The returned store reflects
the mutations performed before any failure: the delete precedes
`process_doc`, so an extraction failure leaves the delete in place. -/
def upload (store : Store) (filename : Option String) (data : FileData) :
    Store × Except UploadError UploadResult :=
  match filename with
  | none => (store, .error .invalidFilename)
  | some fname =>
    if fname = "" then (store, .error .invalidFilename)
    else if fileExtension fname ∉ supported_formats then
      (store, .error .unsupportedFormat)
    else
      let afterDelete := delete_doc store fname
      match process_doc (fileExtension fname) fname data with
      | .error e => (afterDelete, .error (.extraction e))
      | .ok recs => (afterDelete ++ recs, .ok ⟨true, recs.length⟩)

/-- A record as returned by the vector store's `near_text` query: the
required properties, the optional context fields (absent on legacy data),
and the query metadata (certainty and distance), whose numeric type the
core does not inspect. -/
structure StoredObject (Score : Type) where
  text : String
  document_name : String
  chunk_id : Nat
  document_type : String
  context_before : Option String
  context_after : Option String
  certainty : Score
  distance : Score

/-- One reshaped search result (`main.py` lines 130-139). -/
structure SearchResult (Score : Type) where
  text : String
  document_name : String
  chunk_id : Nat
  document_type : String
  context_before : String
  context_after : String
  relevance_score : Score
  distance : Score

/-- The reshaping of one stored record in `search` (`main.py`
lines 130-139): the context fields are read with
`.get("context_before", "")`, so a missing field becomes the empty
string. -/
def reshape {Score : Type} (item : StoredObject Score) : SearchResult Score :=
  { text := item.text
    document_name := item.document_name
    chunk_id := item.chunk_id
    document_type := item.document_type
    context_before := item.context_before.getD ""
    context_after := item.context_after.getD ""
    relevance_score := item.certainty
    distance := item.distance }

/-- The result-building loop of `search` (`main.py` lines 128-139). -/
def search_results {Score : Type} (items : List (StoredObject Score)) :
    List (SearchResult Score) :=
  items.map reshape

theorem process_doc_records_length (chunks : List String) (n t : String) :
    (process_doc_records chunks n t).length = chunks.length := by
  simp [process_doc_records]

theorem process_doc_records_getD (chunks : List String) (n t : String) (i : Nat)
    (h : i < chunks.length) :
    (process_doc_records chunks n t).getD i default =
      { text := chunks.getD i ""
        document_name := n
        chunk_id := i
        document_type := t
        total_chunks := chunks.length
        context_before := if i > 0 then chunks.getD (i - 1) "" else ""
        context_after := if i < chunks.length - 1 then chunks.getD (i + 1) "" else "" } := by
  have hlen : i < (process_doc_records chunks n t).length := by
    rw [process_doc_records_length]; exact h
  rw [List.getD_eq_getElem _ _ hlen]
  simp [process_doc_records, h]

/-- C1: for every chunk sequence and every index `i`, the record built at
index `i` has `context_before` equal to the unmodified chunk at `i-1`
(empty string at `i = 0`) and `context_after` equal to the unmodified
chunk at `i+1` (empty string at the last index). -/
theorem context_linking_correct (chunks : List String) (n t : String) (i : Nat)
    (h : i < chunks.length) :
    ((process_doc_records chunks n t).getD i default).context_before =
        (if i > 0 then chunks.getD (i - 1) "" else "") ∧
      ((process_doc_records chunks n t).getD i default).context_after =
        (if i < chunks.length - 1 then chunks.getD (i + 1) "" else "") := by
  rw [process_doc_records_getD chunks n t i h]
  exact ⟨rfl, rfl⟩

theorem context_linking_correct_witness :
    (1 : Nat) < (["alpha", "beta", "gamma"] : List String).length ∧
      ((process_doc_records ["alpha", "beta", "gamma"] "doc.txt" "txt").getD 1
            default).context_before = "alpha" ∧
      ((process_doc_records ["alpha", "beta", "gamma"] "doc.txt" "txt").getD 1
            default).context_after = "gamma" := by
  refine ⟨by decide, ?_⟩
  have h := context_linking_correct ["alpha", "beta", "gamma"] "doc.txt" "txt" 1 (by decide)
  simpa using h

/-- C4: the records of one document are indexed densely `0, 1, ..., n-1`
(their `chunk_id`s are exactly `List.range n` in order), and every record
carries the same `document_name`, the same `document_type`, and
`total_chunks = n`. -/
theorem records_dense_and_uniform (chunks : List String) (n t : String) :
    ((process_doc_records chunks n t).map (fun r => r.chunk_id) =
        List.range chunks.length) ∧
      ∀ r ∈ process_doc_records chunks n t,
        r.document_name = n ∧ r.document_type = t ∧ r.total_chunks = chunks.length := by
  constructor
  · rw [process_doc_records, List.map_map]
    exact List.map_id _
  · intro r hr
    simp only [process_doc_records, List.mem_map, List.mem_range] at hr
    obtain ⟨i, _, rfl⟩ := hr
    exact ⟨rfl, rfl, rfl⟩

theorem records_dense_and_uniform_witness :
    ((process_doc_records ["a", "b"] "d.txt" "txt").map (fun r => r.chunk_id) =
        List.range 2) ∧
      ∀ r ∈ process_doc_records ["a", "b"] "d.txt" "txt",
        r.document_name = "d.txt" ∧ r.document_type = "txt" ∧ r.total_chunks = 2 :=
  records_dense_and_uniform ["a", "b"] "d.txt" "txt"

theorem splitRec_short (maxSize ov : Nat) (seps : List (List Char)) (t : List Char)
    (h : t.length ≤ maxSize) : splitRec maxSize ov seps t = [t] := by
  cases seps <;> simp [splitRec, h]

/-- C2 (amended: the text must be non-empty — `split("")` is the empty
sequence, see the counterexample): for every non-empty text of length at
most `max_size` (500), `split` returns exactly one chunk equal to the
text, with no overlap applied. -/
theorem split_single_chunk (t : String) (hne : t.data ≠ [])
    (hlen : t.length ≤ chunk_size) : split_text t = [t] := by
  obtain ⟨cs⟩ := t
  simp only [split_text, if_neg hne]
  rw [splitRec_short chunk_size chunk_overlap separators _ hlen]
  rfl

/-- C2 as stated is false at the empty text: `len("") = 0 ≤ 500`, but
`split("")` is the empty chunk sequence, not one (empty) chunk. -/
theorem split_single_chunk_counterexample : split_text "" ≠ [""] := by decide

theorem split_single_chunk_witness :
    ("hello" : String).data ≠ [] ∧ ("hello" : String).length ≤ chunk_size ∧
      split_text "hello" = ["hello"] :=
  ⟨by decide, by decide, split_single_chunk "hello" (by decide) (by decide)⟩

/-- C3: splitting the empty text yields the empty chunk sequence, and
ingesting a document whose extracted text is empty succeeds with
`chunks = 0` (a successful response, not an error). -/
theorem empty_text_zero_chunks (store : Store) (fname : String) (data : FileData)
    (h0 : fname ≠ "") (h1 : fileExtension fname ∈ supported_formats)
    (h2 : extract_text (fileExtension fname) data = .ok "") :
    split_text "" = [] ∧
      (upload store (some fname) data).2 = .ok ⟨true, 0⟩ := by
  refine ⟨rfl, ?_⟩
  have hp : process_doc (fileExtension fname) fname data = .ok [] := by
    rw [process_doc, h2]; rfl
  simp [upload, if_neg h0, not_not_intro h1, hp]

theorem empty_text_zero_chunks_witness :
    ("a.txt" : String) ≠ "" ∧ fileExtension "a.txt" ∈ supported_formats ∧
      extract_text (fileExtension "a.txt") (.txt "") = .ok "" ∧
      (upload [] (some "a.txt") (.txt "")).2 = .ok ⟨true, 0⟩ :=
  ⟨by decide, by decide, rfl,
    (empty_text_zero_chunks [] "a.txt" (.txt "") (by decide) (by decide) rfl).2⟩

/-- C5: the delete-by-document-name of `upload` (line 96) precedes text
extraction (inside `process_doc`, line 98), so when extraction fails after
the delete, the resulting store is exactly the deleted one and holds zero
records for that document name. -/
theorem delete_precedes_extraction (store : Store) (fname : String) (data : FileData)
    (e : ExtractError) (h0 : fname ≠ "")
    (h1 : fileExtension fname ∈ supported_formats)
    (h2 : extract_text (fileExtension fname) data = .error e) :
    upload store (some fname) data = (delete_doc store fname, .error (.extraction e)) ∧
      ∀ r ∈ (upload store (some fname) data).1, r.document_name ≠ fname := by
  have hp : process_doc (fileExtension fname) fname data = .error e := by
    rw [process_doc, h2]; rfl
  have hu : upload store (some fname) data =
      (delete_doc store fname, .error (.extraction e)) := by
    simp [upload, if_neg h0, not_not_intro h1, hp]
  refine ⟨hu, ?_⟩
  rw [hu]
  intro r hr
  simp only [delete_doc, List.mem_filter, decide_eq_true_eq] at hr
  exact hr.2

theorem delete_precedes_extraction_witness :
    ("a.pdf" : String) ≠ "" ∧ fileExtension "a.pdf" ∈ supported_formats ∧
      extract_text (fileExtension "a.pdf") (.txt "x") = .error .extractionError ∧
      upload [⟨"old", "a.pdf", 0, "pdf", 1, "", ""⟩] (some "a.pdf") (.txt "x") =
        ([], .error (.extraction .extractionError)) := by
  refine ⟨by decide, by decide, rfl, ?_⟩
  rw [(delete_precedes_extraction [⟨"old", "a.pdf", 0, "pdf", 1, "", ""⟩] "a.pdf"
    (.txt "x") .extractionError (by decide) (by decide) rfl).1]
  rfl

theorem str_data_append (a b : String) : (a ++ b).data = a.data ++ b.data := by
  cases a; cases b; rfl

theorem str_ext (a b : String) (h : a.data = b.data) : a = b := by
  cases a; cases b; exact congrArg String.mk h

theorem foldl_newline_go (pages : List String) :
    ∀ acc : String,
      pages.foldl (fun a p => a ++ p ++ "\n") acc =
        acc ++ String.join (pages.map fun p => p ++ "\n") := by
  induction pages with
  | nil =>
    intro acc
    apply str_ext
    simp [str_data_append]
  | cons p ps ih =>
    intro acc
    rw [List.foldl_cons, ih]
    apply str_ext
    simp [str_data_append]

/-- C7 as stated is false: the `pdf` branch appends a newline after every
page's OCR text (`text += ... + "\n"`, line 164), so with pages
`["a", "b"]` the extracted text is `"a\nb\n"`, not the
newline-separated join `"a\nb"`. -/
theorem pdf_newline_counterexample :
    extract_text "pdf" (.pdf ["a", "b"]) ≠
      .ok (String.intercalate "\n" ["a", "b"]) := by
  intro h
  exact absurd (Except.ok.inj h) (by decide)

/-- C7 (amended: the newline is a terminator, not a separator): for every
page sequence, the `pdf` extracted text is the concatenation of the
per-page OCR texts each followed by a newline — a trailing newline is
present after the last page as well. -/
theorem pdf_newline_terminator (pages : List String) :
    extract_text "pdf" (.pdf pages) =
      .ok (String.join (pages.map fun p => p ++ "\n")) := by
  have h1 : extract_text "pdf" (.pdf pages) =
      .ok (pages.foldl (fun acc p => acc ++ p ++ "\n") "") := rfl
  rw [h1, foldl_newline_go pages ""]
  apply congrArg
  apply str_ext
  simp [str_data_append]

/-- C8: an upload whose filename-derived declared type is not one of
`pdf`, `docx`, `txt`, `json` fails with the unsupported-format error (the
HTTP 400 of line 85) and the store is not mutated at all — no delete and
no insert. -/
theorem unsupported_format_rejected (store : Store) (fname : String) (data : FileData)
    (h0 : fname ≠ "") (h1 : fileExtension fname ∉ supported_formats) :
    upload store (some fname) data = (store, .error .unsupportedFormat) := by
  simp [upload, if_neg h0, h1]

theorem unsupported_format_rejected_witness :
    ("virus.exe" : String) ≠ "" ∧ fileExtension "virus.exe" ∉ supported_formats ∧
      upload [⟨"old", "x.pdf", 0, "pdf", 1, "", ""⟩] (some "virus.exe") (.txt "x") =
        ([⟨"old", "x.pdf", 0, "pdf", 1, "", ""⟩], .error .unsupportedFormat) :=
  ⟨by decide, by decide,
    unsupported_format_rejected [⟨"old", "x.pdf", 0, "pdf", 1, "", ""⟩] "virus.exe"
      (.txt "x") (by decide) (by decide)⟩

/-- C9: reshaping the records returned by the vector store never fails —
it is a total function producing one result per record — and a missing
`context_before` or `context_after` becomes the empty string in the
search result. -/
theorem missing_context_defaults (Score : Type) (items : List (StoredObject Score))
    (item : StoredObject Score)
    (hb : item.context_before = none) (ha : item.context_after = none) :
    (search_results items).length = items.length ∧
      (reshape item).context_before = "" ∧ (reshape item).context_after = "" := by
  refine ⟨by simp [search_results], ?_, ?_⟩ <;> simp [reshape, hb, ha]

theorem missing_context_defaults_witness :
    (⟨"t", "d", 0, "ty", none, none, (), ()⟩ : StoredObject Unit).context_before = none ∧
      (⟨"t", "d", 0, "ty", none, none, (), ()⟩ : StoredObject Unit).context_after = none ∧
      (search_results [(⟨"t", "d", 0, "ty", none, none, (), ()⟩ : StoredObject Unit)]).length = 1 ∧
      (reshape (⟨"t", "d", 0, "ty", none, none, (), ()⟩ : StoredObject Unit)).context_before = "" ∧
      (reshape (⟨"t", "d", 0, "ty", none, none, (), ()⟩ : StoredObject Unit)).context_after = "" := by
  have h := missing_context_defaults Unit [⟨"t", "d", 0, "ty", none, none, (), ()⟩]
    ⟨"t", "d", 0, "ty", none, none, (), ()⟩ rfl rfl
  exact ⟨rfl, rfl, h.1, h.2.1, h.2.2⟩

/-- C6: for every `json` file, the extracted text is the canonical
re-serialization of the parsed JSON structure — parse-validation first,
failing with the malformed-input error on invalid JSON, then re-emission
as text.  In particular, the input characters `\x7b"a":1\x7d` yield the
extracted text `\x7b"a": 1\x7d` and exactly one chunk. -/
theorem json_canonical_reserialization :
    (∀ raw : String,
        extract_text "json" (.json raw) =
          match parseJson raw with
          | some v => .ok (dumps raw.length v)
          | none => .error .malformedInput) ∧
      extract_text "json" (.json "\x7b\"a\":1\x7d") = .ok "\x7b\"a\": 1\x7d" ∧
      extract_text "json" (.json "not json") = .error .malformedInput ∧
      (process_doc "json" "d.json" (.json "\x7b\"a\":1\x7d")).map List.length =
        .ok 1 :=
  ⟨fun _ => rfl, rfl, rfl, rfl⟩

theorem afterLastDot_no_dot (l : List Char) (h : '.' ∉ l) : afterLastDot l = l := by
  induction l with
  | nil => rfl
  | cons c t ih =>
    have hc : ¬c = '.' := fun e => h (e ▸ List.mem_cons_self c t)
    have ht : '.' ∉ t := fun m => h (List.mem_cons_of_mem c m)
    simp [afterLastDot, ht, hc, ih ht]

theorem splitOn_singleton_of_not_mem (t : List Char) (h : '.' ∉ t) :
    t.splitOn '.' = [t] := by
  rw [List.splitOn]
  apply List.splitOnP_eq_single
  intro x hx e
  rw [beq_iff_eq] at e
  exact h (e ▸ hx)

theorem two_le_length_splitOn_of_mem (t : List Char) (h : '.' ∈ t) :
    2 ≤ (t.splitOn '.').length := by
  rw [List.splitOn]
  induction t with
  | nil => cases h
  | cons c r ih =>
    rw [List.splitOnP_cons]
    by_cases hc : c = '.'
    · rw [if_pos (by simp [hc])]
      cases hS : List.splitOnP (fun x => x == '.') r with
      | nil => exact absurd hS (List.splitOnP_ne_nil _ r)
      | cons a s => simp
    · rw [if_neg (by simp [hc])]
      have hr : '.' ∈ r := by
        rcases List.mem_cons.mp h with h1 | h1
        · exact absurd h1.symm hc
        · exact h1
      have h2 := ih hr
      cases hS : List.splitOnP (fun x => x == '.') r with
      | nil => exact absurd hS (List.splitOnP_ne_nil _ r)
      | cons a s =>
        rw [hS] at h2
        simpa using h2

theorem getLast?_modifyHead_two (f : List Char → List Char) (a b : List Char)
    (s : List (List Char)) :
    ((a :: b :: s).modifyHead f).getLast? = (a :: b :: s).getLast? := by
  show (f a :: b :: s).getLast? = (a :: b :: s).getLast?
  rw [List.getLast?_cons_cons, List.getLast?_cons_cons]

theorem getLast_splitOn_eq_afterLastDot (l : List Char) :
    (l.splitOn '.').getLast?.getD [] = afterLastDot l := by
  induction l with
  | nil => rfl
  | cons c t ih =>
    rw [List.splitOn, List.splitOnP_cons]
    rw [List.splitOn] at ih
    by_cases hc : c = '.'
    · rw [if_pos (by simp [hc])]
      obtain ⟨a, s, hs⟩ :=
        List.exists_cons_of_ne_nil (List.splitOnP_ne_nil (fun x => x == '.') t)
      rw [hs, List.getLast?_cons_cons]
      rw [hs] at ih
      rw [ih]
      by_cases hmem : '.' ∈ t
      · simp [afterLastDot, hmem]
      · rw [afterLastDot_no_dot t hmem]
        simp [afterLastDot, hmem, hc]
    · rw [if_neg (by simp [hc])]
      by_cases hmem : '.' ∈ t
      · have h2 := two_le_length_splitOn_of_mem t hmem
        rw [List.splitOn] at h2
        cases hS : List.splitOnP (fun x => x == '.') t with
        | nil => exact absurd hS (List.splitOnP_ne_nil _ t)
        | cons a s =>
          rw [hS] at h2 ih
          cases s with
          | nil => simp at h2
          | cons b s' =>
            rw [getLast?_modifyHead_two, List.getLast?_cons_cons]
            rw [List.getLast?_cons_cons] at ih
            rw [ih]
            simp [afterLastDot, hmem]
      · have hS : List.splitOnP (fun x => x == '.') t = [t] := by
          have h1 := splitOn_singleton_of_not_mem t hmem
          rwa [List.splitOn] at h1
        rw [hS]
        show ([c :: t].getLast?).getD [] = afterLastDot (c :: t)
        simp [afterLastDot, hmem, hc]

/-- C10: the declared type used for format dispatch is exactly the
substring of the filename after its last dot, compared case-sensitively:
`file.PDF` has declared type `PDF` and is rejected as unsupported, while
the dot-free filename `pdf` has the whole name as its declared type and
is accepted. -/
theorem extension_dispatch_exact :
    (∀ f : String, fileExtension f = String.mk (afterLastDot f.data)) ∧
      fileExtension "file.PDF" = "PDF" ∧
      (∀ (store : Store) (data : FileData),
        upload store (some "file.PDF") data = (store, .error .unsupportedFormat)) ∧
      fileExtension "pdf" = "pdf" ∧
      upload [] (some "pdf") (.pdf ["hello"]) =
        ([⟨"hello\n", "pdf", 0, "pdf", 1, "", ""⟩], .ok ⟨true, 1⟩) := by
  refine ⟨?_, rfl, ?_, rfl, by rfl⟩
  · intro f
    rw [fileExtension, getLast_splitOn_eq_afterLastDot]
  · intro store data
    simp [upload, show fileExtension "file.PDF" ∉ supported_formats by decide]

end RagSystem
